import Mathlib

/-!
Formal model of the appointment queueing and scheduling engine together with
its fuzzy command matcher (src/app.py).  Python string primitives are embedded
as structural functions over character lists so that every definition is
executable and kernel-reducible.  Machine integers are modelled as `Nat`
(Python integers are unbounded, so no wrapping is needed); Python exceptions
are modelled with `Option` (`none` = the call raises).
-/

namespace Clinic

/-! ### Python string primitives -/

/-- Python `sep.split` restricted to a single-character separator, keeping
empty fields, as in `"a–b".split("–") = ["a","b"]` and `"–x".split("–") =
["", "x"]`. -/
def splitChar (sep : Char) : List Char → List (List Char)
  | [] => [[]]
  | c :: rest =>
    match splitChar sep rest with
    | [] => [[c]]
    | g :: gs => if c == sep then [] :: g :: gs else (c :: g) :: gs

/-- Split on runs of whitespace, as Python `str.split()` with no argument:
empty fields are discarded. -/
def splitWsAux : List Char → List (List Char)
  | [] => [[]]
  | c :: rest =>
    match splitWsAux rest with
    | [] => [[c]]
    | g :: gs => if c.isWhitespace then [] :: g :: gs else (c :: g) :: gs

def pySplitWs (s : String) : List String :=
  ((splitWsAux s.data).filter (· ≠ [])).map (fun l => ⟨l⟩)

/-- Python `str.strip()` (whitespace at both ends removed). -/
def pyStrip (s : String) : String :=
  ⟨((s.data.dropWhile Char.isWhitespace).reverse.dropWhile Char.isWhitespace).reverse⟩

/-- Python `str.lower()` (ASCII case folding suffices for this code base). -/
def pyLower (s : String) : String := ⟨s.data.map Char.toLower⟩

/-- Left-to-right, non-overlapping removal of every occurrence of `pat`,
as Python `s.replace(pat, "")` for a non-empty `pat`.  The fuel argument is
the length of the scanned list, which bounds the number of steps. -/
def removeAllAux (pat : List Char) : Nat → List Char → List Char
  | _, [] => []
  | 0, l => l
  | fuel + 1, c :: rest =>
    if pat.isPrefixOf (c :: rest) then
      removeAllAux pat fuel ((c :: rest).drop pat.length)
    else
      c :: removeAllAux pat fuel rest

def pyRemoveAll (s pat : String) : String :=
  ⟨removeAllAux pat.data s.data.length s.data⟩

/-- Python substring test `needle in hay`. -/
def sublistAt (needle : List Char) : List Char → Bool
  | [] => needle.isEmpty
  | c :: rest => needle.isPrefixOf (c :: rest) || sublistAt needle rest

def strContains (hay needle : String) : Bool :=
  sublistAt needle.data hay.data

def digitsToNat (l : List Char) : Nat :=
  l.foldl (fun n c => n * 10 + (c.toNat - 48)) 0

def allDigits (l : List Char) : Bool := l.all Char.isDigit

/-! ### Times and dates -/

/-- Embedding of Python `datetime.strptime(s, "%H:%M").time()` as minutes
after midnight: two colon-separated fields of one or two digits each, with
hour at most 23 and minute at most 59; `none` models a raised `ValueError`. -/
def parseHM (s : String) : Option Nat :=
  match splitChar ':' s.data with
  | [h, m] =>
    if h ≠ [] ∧ h.length ≤ 2 ∧ allDigits h ∧ m ≠ [] ∧ m.length ≤ 2 ∧ allDigits m then
      let hv := digitsToNat h
      let mv := digitsToNat m
      if hv ≤ 23 ∧ mv ≤ 59 then some (hv * 60 + mv) else none
    else none
  | _ => none

/-- A Python `datetime.date` value. -/
structure CalDate where
  year : Nat
  month : Nat
  day : Nat
deriving DecidableEq, Repr

def isLeap (y : Nat) : Bool := (y % 4 == 0 && y % 100 != 0) || y % 400 == 0

def daysInMonth (y m : Nat) : Nat :=
  if m = 2 then (if isLeap y then 29 else 28)
  else if m = 4 ∨ m = 6 ∨ m = 9 ∨ m = 11 then 30
  else 31

/-- Embedding of `datetime.strptime(s, "%Y-%m-%d").date()`: `%Y` is exactly
four digits, `%m` and `%d` are one or two digits, and the resulting triple
must be a real calendar date; `none` models a raised `ValueError`. -/
def parseDate (s : String) : Option CalDate :=
  match splitChar '-' s.data with
  | [y, m, d] =>
    if y.length = 4 ∧ allDigits y ∧
       m ≠ [] ∧ m.length ≤ 2 ∧ allDigits m ∧
       d ≠ [] ∧ d.length ≤ 2 ∧ allDigits d then
      let yv := digitsToNat y
      let mv := digitsToNat m
      let dv := digitsToNat d
      if 1 ≤ mv ∧ mv ≤ 12 ∧ 1 ≤ dv ∧ dv ≤ daysInMonth yv mv then
        some ⟨yv, mv, dv⟩
      else none
    else none
  | _ => none

/-- Comparison of Python `date` objects (lexicographic on year, month, day). -/
def dateLt (a b : CalDate) : Bool :=
  a.year < b.year ||
    (a.year == b.year && (a.month < b.month ||
      (a.month == b.month && a.day < b.day)))

/-- `today + timedelta(days=1)`. -/
def nextDay (d : CalDate) : CalDate :=
  if d.day < daysInMonth d.year d.month then ⟨d.year, d.month, d.day + 1⟩
  else if d.month < 12 then ⟨d.year, d.month + 1, 1⟩
  else ⟨d.year + 1, 1, 1⟩

def pad2 (n : Nat) : String := if n < 10 then "0" ++ toString n else toString n

def pad4 (n : Nat) : String :=
  if n < 10 then "000" ++ toString n
  else if n < 100 then "00" ++ toString n
  else if n < 1000 then "0" ++ toString n
  else toString n

/-- Python `str(date)`, the ISO form `YYYY-MM-DD`. -/
def dateToStr (d : CalDate) : String :=
  pad4 d.year ++ "-" ++ pad2 d.month ++ "-" ++ pad2 d.day

/-- `strftime("%I:%M %p")` applied to a time of day given in minutes after
midnight (`m < 1440`). -/
def fmt12h (m : Nat) : String :=
  let h := m / 60
  let mi := m % 60
  let h12 := if h % 12 = 0 then 12 else h % 12
  pad2 h12 ++ ":" ++ pad2 mi ++ (if h < 12 then " AM" else " PM")

/-! ### Data model

`Doctor` embeds the doctor-role columns of the `User` model; `Appointment`
embeds the `Appointment` model.  `created_at` is the creation counter: the
code defaults it to `datetime.utcnow`, and rows are created with strictly
increasing timestamps, so the auto-increment id doubles as the timestamp. -/

structure Doctor where
  id : Nat
  name : String
  availability : Bool
  available_time : String
  max_patients : Nat
  avg_consult_time : Nat
deriving DecidableEq, Repr

structure Appointment where
  id : Nat
  appointment_number : Nat
  patient_id : Nat
  doctor_id : Nat
  date : String
  status : String
  prescription : Option String
  pharmacy_status : String
  estimated_time : String
  created_at : Nat
deriving DecidableEq, Repr

structure State where
  doctors : List Doctor
  appts : List Appointment
  nextId : Nat
deriving DecidableEq, Repr

/-! ### Scheduling engine -/

/-- The start of the availability window in minutes: guard
`if not doctor.available_time` (empty string is falsy), then
`available_time.split("–")[0].strip()` parsed with `%H:%M`
(src/app.py:63-67). -/
def startMinutes (doc : Doctor) : Option Nat :=
  if doc.available_time = "" then none
  else parseHM (pyStrip ⟨((splitChar '–' doc.available_time.data).headD [])⟩)

/-- The end of the availability window in minutes:
`available_time.split("–")[-1].strip()` parsed with `%H:%M`
(src/app.py:104-105). -/
def endMinutes (doc : Doctor) : Option Nat :=
  parseHM (pyStrip ⟨((splitChar '–' doc.available_time.data).getLastD [])⟩)

/-- Total minutes of the estimate before the `strftime` display:
`start_dt + timedelta(minutes=(queue_position - 1) * avg_consult_time)`
(src/app.py:68). -/
def estMinutes (doc : Doctor) (queue_position : Nat) : Option Nat :=
  (startMinutes doc).map
    (fun st => st + (queue_position - 1) * doc.avg_consult_time)

/-- Embedding of `calculate_estimated_time` (src/app.py:61-71).  The
`try/except` around the parse and the falsy guard both yield `"N/A"`; a
successful parse yields the 12-hour rendering of the computed time of day
(the `datetime` addition never raises, and `strftime` shows the time modulo
one day). -/
def calculate_estimated_time (doc : Doctor) (queue_position : Nat) : String :=
  match estMinutes doc queue_position with
  | none => "N/A"
  | some tot => fmt12h (tot % 1440)

/-- Embedding of `is_date_available` (src/app.py:91-110).  The result is
`none` when `datetime.strptime(selected_date, "%Y-%m-%d")` raises — that call
is outside the `try` block, so the exception propagates to the caller.  The
clock is injected: `today` stands for `date.today()` and `nowMin` for
`datetime.now().time()` in minutes. -/
def is_date_available (doc : Doctor) (selected_date : String)
    (today : CalDate) (nowMin : Nat) : Option Bool :=
  match parseDate selected_date with
  | none => none
  | some selected =>
    if dateLt selected today then some false
    else if selected = today then
      match endMinutes doc with
      | some endMin => some (decide (nowMin < endMin))
      | none => some true
    else some true

/-- Membership of an appointment in the Pending partition of one doctor and
one date, as used by `filter_by(doctor_id=…, date=…, status="Pending")`. -/
def isPend (did : Nat) (dt : String) (a : Appointment) : Bool :=
  a.doctor_id == did && a.date == dt && a.status == "Pending"

def pendingFor (s : State) (did : Nat) (dt : String) : List Appointment :=
  s.appts.filter (isPend did dt)

inductive BookResult where
  | doctorNotFound
  | raised
  | dateNotBookable
  | duplicateBooking
  | capacityExceeded
  | booked
deriving DecidableEq, Repr

/-- Embedding of the booking branch of `patient_dashboard`
(src/app.py:193-231): look the doctor up by id; check `is_date_available`
(`.raised` models the uncaught `strptime` exception); reject when any
appointment — of any status — already exists for the same patient, doctor
and date; reject when the Pending count has reached `max_patients`;
otherwise append a new Pending appointment numbered `count + 1`. -/
def attempt_booking (s : State) (today : CalDate) (nowMin : Nat)
    (patientId doctorId : Nat) (dateSel : String) : BookResult × State :=
  match s.doctors.find? (fun d => d.id == doctorId) with
  | none => (.doctorNotFound, s)
  | some doctor =>
    match is_date_available doctor dateSel today nowMin with
    | none => (.raised, s)
    | some false => (.dateNotBookable, s)
    | some true =>
      if s.appts.any (fun a =>
          a.patient_id == patientId && a.doctor_id == doctorId && a.date == dateSel) then
        (.duplicateBooking, s)
      else
        let count := (s.appts.filter (isPend doctorId dateSel)).length
        if doctor.max_patients ≤ count then (.capacityExceeded, s)
        else
          let q := count + 1
          let appt : Appointment :=
            { id := s.nextId
              appointment_number := q
              patient_id := patientId
              doctor_id := doctorId
              date := dateSel
              status := "Pending"
              prescription := none
              pharmacy_status := "Not Processed"
              estimated_time := calculate_estimated_time doctor q
              created_at := s.nextId }
          (.booked, { s with appts := s.appts ++ [appt], nextId := s.nextId + 1 })

/-- One pass of the loop body of `reindex_appointments` (src/app.py:79-81):
walk the appointment table in creation order and assign `k, k+1, …` to the
members of the Pending partition of `(did, dt)`, recomputing each estimate. -/
def reindexAppts (doc : Doctor) (did : Nat) (dt : String) :
    Nat → List Appointment → List Appointment
  | _, [] => []
  | k, a :: rest =>
    if isPend did dt a then
      { a with appointment_number := k,
               estimated_time := calculate_estimated_time doc k }
        :: reindexAppts doc did dt (k + 1) rest
    else
      a :: reindexAppts doc did dt k rest

/-- Embedding of `reindex_appointments` (src/app.py:74-82).  The query
orders by `created_at`, which coincides with the insertion order of the
table as modelled here.  `appt.doctor` is the doctor row with id `did`;
if that row were absent and the partition non-empty the code would raise
(`None.available_time`), a situation that cannot arise here because the
caller is a logged-in doctor. -/
def reindex_appointments (s : State) (did : Nat) (dt : String) : State :=
  match s.doctors.find? (fun d => d.id == did) with
  | some doc => { s with appts := reindexAppts doc did dt 1 s.appts }
  | none => s

inductive CompleteResult where
  | done
  | missing
deriving DecidableEq, Repr

/-- The row update performed by the `send_prescription` branch on the row
whose id matches: set the prescription and force the Completed status
(src/app.py:253-254). -/
def completeUpd (apptId : Nat) (rx : String) (b : Appointment) : Appointment :=
  if b.id == apptId then
    { b with prescription := some rx, status := "Completed" }
  else b

/-- Embedding of the `send_prescription` branch of `doctor_dashboard`
(src/app.py:247-257): if the appointment id resolves, set the prescription
and the Completed status — regardless of the current status — and reindex
the partition of the *acting* doctor (`current_user.id`) on the
appointment's date; if it does not resolve, nothing happens (no outcome is
flashed). -/
def complete_appointment (s : State) (actorId apptId : Nat) (rx : String) :
    CompleteResult × State :=
  match s.appts.find? (fun a => a.id == apptId) with
  | none => (.missing, s)
  | some a =>
    let appts' := s.appts.map (completeUpd apptId rx)
    (.done, reindex_appointments { s with appts := appts' } actorId a.date)

/-! ### Command matcher

Python computes similarity scores as floats; we idealize them as exact
rationals.  To keep every comparison kernel-computable we carry scores as
raw fractions with a positive denominator and compare by cross
multiplication (no gcd normalization, which would not reduce). -/

structure Score where
  num : Int
  den : Int
  pos : 0 < den

def Score.add (a b : Score) : Score :=
  ⟨a.num * b.den + b.num * a.den, a.den * b.den, mul_pos a.pos b.pos⟩

/-- Order on scores, by cross multiplication (well behaved because
denominators are positive). -/
def Score.lt (a b : Score) : Prop := a.num * b.den < b.num * a.den

def Score.le (a b : Score) : Prop := a.num * b.den ≤ b.num * a.den

instance (a b : Score) : Decidable (Score.lt a b) :=
  inferInstanceAs (Decidable (_ < _))

instance (a b : Score) : Decidable (Score.le a b) :=
  inferInstanceAs (Decidable (_ ≤ _))

/-- `a < b` as the Bool the loop branches on. -/
def Score.slt (a b : Score) : Bool := decide (Score.lt a b)

/-- `a ≤ b` as the Bool of the threshold test. -/
def Score.sle (a b : Score) : Bool := decide (Score.le a b)

def Score.zero : Score := ⟨0, 1, one_pos⟩

/-- The literal `0.4` of the matcher: both the name bonus and the acceptance
threshold. -/
def Score.pt4 : Score := ⟨2, 5, by norm_num⟩

/-- Embedding of `normalize_text` (src/app.py:357-361): lower-case, strip
the stoplist words in order, keep only alphanumeric characters and
whitespace, strip the ends. -/
def normalize_text (t : String) : String :=
  let t := pyLower t
  let t := ["doctor", "dr.", "dr", "appointment", "book", "with", "for"].foldl
    pyRemoveAll t
  pyStrip ⟨t.data.filter (fun c => c.isAlphanum || c.isWhitespace)⟩

/-- The per-candidate score of `match_doctor_name` (src/app.py:371-374):
the similarity ratio of the normalized name against the normalized command,
plus `0.4` when the first or the last whitespace token of the lower-cased
raw name occurs in the normalized command.  The `SequenceMatcher` ratio is
an external library collaborator, abstracted as the parameter `ratio`. -/
def finalScore (ratio : String → String → Score) (cmdClean : String)
    (d : Doctor) : Score :=
  let base := ratio (normalize_text d.name) cmdClean
  if strContains cmdClean ((pySplitWs (pyLower d.name)).headD "") ||
     strContains cmdClean ((pySplitWs (pyLower d.name)).getLastD "") then
    base.add Score.pt4
  else base

/-- The loop body of `match_doctor_name` (src/app.py:371-378): record the
candidate when its score strictly exceeds the running best. -/
def matchStep (sc : Doctor → Score) (acc : Option Doctor × Score)
    (d : Doctor) : Option Doctor × Score :=
  if acc.2.slt (sc d) then (some d, sc d) else acc

/-- Embedding of `match_doctor_name` (src/app.py:363-384).  The outer
`Option` models the `IndexError` raised by `d.name.lower().split()[0]` when
some candidate's name has no tokens; otherwise the loop tracks the best
strict improvement over `highest_score = 0` and accepts only when a
candidate was recorded and its score reaches `0.4`. -/
def match_doctor_name (ratio : String → String → Score) (doctors : List Doctor)
    (command : String) : Option (Option Doctor) :=
  if doctors.any (fun d => pySplitWs (pyLower d.name) = []) then none
  else
    let best := doctors.foldl
      (matchStep (finalScore ratio (normalize_text command))) (none, Score.zero)
    some (match best.1 with
          | some d => if Score.pt4.sle best.2 then some d else none
          | none => none)

/-- Embedding of the date resolution inlined in `recognize_and_book`
(src/app.py:417-423); `command` is the already lower-cased recognized
text. -/
def resolve_relative_date (command : String) (today : CalDate) : CalDate :=
  if strContains command "tomorrow" then nextDay today
  else if strContains command "today" || strContains command "aaj" then today
  else nextDay today

inductive VoiceResult where
  | stopped
  | errored
  | doctorNotFound
  | capacityFull
  | booked
deriving DecidableEq, Repr

def stopWords : List String := ["stop", "exit", "cancel", "close"]

/-- Embedding of one iteration of the `recognize_and_book` loop
(src/app.py:398-452) after speech recognition has produced `commandRaw`
(which the code immediately lower-cases): stop-phrase check, doctor
matching (`.errored` models the blanket `except` that swallows the matcher's
`IndexError` and retries), relative-date resolution, then a capacity check
only — there is no `is_date_available` check and no duplicate check — and
the appointment insertion with `queue_position = count + 1`. -/
def recognize_and_book_step (ratio : String → String → Score) (s : State)
    (today : CalDate) (patientId : Nat) (commandRaw : String) :
    VoiceResult × State :=
  let command := pyLower commandRaw
  if stopWords.any (fun w => strContains command w) then (.stopped, s)
  else
    match match_doctor_name ratio s.doctors command with
    | none => (.errored, s)
    | some none => (.doctorNotFound, s)
    | some (some doc) =>
      let dstr := dateToStr (resolve_relative_date command today)
      let count := (s.appts.filter (isPend doc.id dstr)).length
      if doc.max_patients ≤ count then (.capacityFull, s)
      else
        let q := count + 1
        let appt : Appointment :=
          { id := s.nextId
            appointment_number := q
            patient_id := patientId
            doctor_id := doc.id
            date := dstr
            status := "Pending"
            prescription := none
            pharmacy_status := "Not Processed"
            estimated_time := calculate_estimated_time doc q
            created_at := s.nextId }
        (.booked, { s with appts := s.appts ++ [appt], nextId := s.nextId + 1 })

/-! ### Invariant I1 and reachability -/

/-- Invariant I1 in its strong form: for every partition, the queue numbers
of the Pending appointments, read in creation order, are `1, 2, …, N`.
This entails the spec's set form `{1..N}` with no gaps or duplicates. -/
def I1 (s : State) : Prop :=
  ∀ did dt, (pendingFor s did dt).map (·.appointment_number) =
    List.range' 1 (pendingFor s did dt).length

/-- States reachable from an empty appointment table by the code's own
operations: visual bookings, voice bookings and completions.  A completion
step carries the facts the deployment guarantees: the acting user is a
doctor row, and the appointment being completed belongs to the acting
doctor (the dashboard lists only the doctor's own Pending appointments). -/
inductive Reachable : State → Prop
  | init (doctors : List Doctor) (n : Nat) : Reachable ⟨doctors, [], n⟩
  | book (s : State) (today : CalDate) (nowMin patientId doctorId : Nat)
      (dateSel : String) : Reachable s →
      Reachable (attempt_booking s today nowMin patientId doctorId dateSel).2
  | voice (ratio : String → String → Score) (s : State) (today : CalDate)
      (patientId : Nat) (command : String) : Reachable s →
      Reachable (recognize_and_book_step ratio s today patientId command).2
  | complete (s : State) (actorId apptId : Nat) (rx : String) : Reachable s →
      (s.doctors.find? (fun d => d.id == actorId)).isSome →
      (∀ a, s.appts.find? (fun b => b.id == apptId) = some a →
        a.doctor_id = actorId) →
      Reachable (complete_appointment s actorId apptId rx).2

/-! ### Order lemmas for scores -/

namespace Score

theorem not_lt {a b : Score} : ¬ Score.lt a b ↔ Score.le b a := by
  simp [Score.lt, Score.le, Int.not_lt]

theorem le_of_lt {a b : Score} (h : Score.lt a b) : Score.le a b :=
  Int.le_of_lt h

theorem lt_trans {a b c : Score} (h1 : Score.lt a b) (h2 : Score.lt b c) :
    Score.lt a c := by
  have t1 : a.num * b.den * c.den < b.num * a.den * c.den :=
    mul_lt_mul_of_pos_right h1 c.pos
  have t2 : b.num * c.den * a.den < c.num * b.den * a.den :=
    mul_lt_mul_of_pos_right h2 a.pos
  have t3 : a.num * c.den * b.den < c.num * a.den * b.den := by nlinarith
  exact lt_of_mul_lt_mul_right t3 b.pos.le

theorem lt_of_le_of_lt {a b c : Score} (h1 : Score.le a b) (h2 : Score.lt b c) :
    Score.lt a c := by
  have t1 : a.num * b.den * c.den ≤ b.num * a.den * c.den :=
    mul_le_mul_of_nonneg_right h1 c.pos.le
  have t2 : b.num * c.den * a.den < c.num * b.den * a.den :=
    mul_lt_mul_of_pos_right h2 a.pos
  have t3 : a.num * c.den * b.den < c.num * a.den * b.den := by nlinarith
  exact lt_of_mul_lt_mul_right t3 b.pos.le

theorem lt_of_lt_of_le {a b c : Score} (h1 : Score.lt a b) (h2 : Score.le b c) :
    Score.lt a c := by
  have t1 : a.num * b.den * c.den < b.num * a.den * c.den :=
    mul_lt_mul_of_pos_right h1 c.pos
  have t2 : b.num * c.den * a.den ≤ c.num * b.den * a.den :=
    mul_le_mul_of_nonneg_right h2 a.pos.le
  have t3 : a.num * c.den * b.den < c.num * a.den * b.den := by nlinarith
  exact lt_of_mul_lt_mul_right t3 b.pos.le

theorem le_trans {a b c : Score} (h1 : Score.le a b) (h2 : Score.le b c) :
    Score.le a c := by
  have t1 : a.num * b.den * c.den ≤ b.num * a.den * c.den :=
    mul_le_mul_of_nonneg_right h1 c.pos.le
  have t2 : b.num * c.den * a.den ≤ c.num * b.den * a.den :=
    mul_le_mul_of_nonneg_right h2 a.pos.le
  have t3 : a.num * c.den * b.den ≤ c.num * a.den * b.den := by nlinarith
  exact le_of_mul_le_mul_right t3 b.pos

theorem zero_lt_pt4 : Score.lt Score.zero Score.pt4 := by
  simp [Score.lt, Score.zero, Score.pt4]

theorem slt_eq_true {a b : Score} : a.slt b = true ↔ Score.lt a b := by
  simp [Score.slt]

theorem slt_eq_false {a b : Score} : a.slt b = false ↔ Score.le b a := by
  simp [Score.slt, not_lt]

theorem sle_eq_true {a b : Score} : a.sle b = true ↔ Score.le a b := by
  simp [Score.sle]

theorem sle_eq_false {a b : Score} : a.sle b = false ↔ Score.lt b a := by
  simp [Score.sle, Score.le, Score.lt, Int.not_le]

end Score

/-! ### Shared concrete fixtures for witnesses and counterexamples -/

def drSmith : Doctor := ⟨1, "John Smith", true, "09:00–17:00", 5, 15⟩

/-- Same doctor but with `availability = False` (not accepting bookings). -/
def drOff : Doctor := ⟨1, "John Smith", false, "09:00–17:00", 5, 15⟩

def day0 : CalDate := ⟨2026, 1, 1⟩

/-- A Completed appointment of patient 7 with doctor 1 on 2026-01-02. -/
def apDone : Appointment :=
  ⟨1, 1, 7, 1, "2026-01-02", "Completed", some "rx", "Not Processed", "09:00 AM", 1⟩

/-- A Pending appointment of patient 7 with doctor 1 on 2026-01-02. -/
def apPend : Appointment :=
  ⟨1, 1, 7, 1, "2026-01-02", "Pending", none, "Not Processed", "09:00 AM", 1⟩

/-- A constant similarity collaborator (every comparison scores 0). -/
def ratioZero : String → String → Score := fun _ _ => Score.zero

/-! ### C3 and C4: the time estimator -/

/-- C3: with a well-formed window start `st` and a queue position `p ≥ 1`,
the estimate is `st + (p − 1) · avg_consult_time` minutes; position 1 maps
to the window start, and consecutive positions differ by exactly
`avg_consult_time`, with no check against the window end. -/
theorem estimate_time_linear (doc : Doctor) (st p : Nat)
    (hs : startMinutes doc = some st) (hp : 1 ≤ p) :
    estMinutes doc p = some (st + (p - 1) * doc.avg_consult_time)
    ∧ estMinutes doc 1 = some st
    ∧ ∃ a b, estMinutes doc (p + 1) = some a ∧ estMinutes doc p = some b
        ∧ a = b + doc.avg_consult_time := by
  refine ⟨by simp [estMinutes, hs], by simp [estMinutes, hs], ?_⟩
  refine ⟨st + p * doc.avg_consult_time,
    st + (p - 1) * doc.avg_consult_time, by simp [estMinutes, hs],
    by simp [estMinutes, hs], ?_⟩
  have hps : p - 1 + 1 = p := Nat.succ_pred_eq_of_pos hp
  calc st + p * doc.avg_consult_time
      = st + (p - 1 + 1) * doc.avg_consult_time := by rw [hps]
    _ = st + ((p - 1) * doc.avg_consult_time + doc.avg_consult_time) := by
        rw [Nat.succ_mul]
    _ = st + (p - 1) * doc.avg_consult_time + doc.avg_consult_time := by
        rw [Nat.add_assoc]

/-- C3 witness: the spec's worked example — window `09:00–17:00`, 15-minute
consultations, fourth position estimated at 540 + 45 minutes. -/
theorem estimate_time_linear_witness :
    startMinutes drSmith = some 540 ∧ 1 ≤ 4
    ∧ estMinutes drSmith 4 = some (540 + (4 - 1) * drSmith.avg_consult_time) :=
  ⟨by decide, by decide, (estimate_time_linear drSmith 540 4 (by decide) (by decide)).1⟩

/-- C4: `calculate_estimated_time` is total — it returns either the `"N/A"`
sentinel or the 12-hour rendering of a time of day — and in particular a
missing or malformed window start yields the sentinel rather than a fault. -/
theorem estimate_time_total (doc : Doctor) (q : Nat) :
    (calculate_estimated_time doc q = "N/A"
      ∨ ∃ m, m < 1440 ∧ calculate_estimated_time doc q = fmt12h m)
    ∧ (startMinutes doc = none → calculate_estimated_time doc q = "N/A") := by
  constructor
  · cases h : estMinutes doc q with
    | none => exact Or.inl (by simp [calculate_estimated_time, h])
    | some tot =>
      exact Or.inr ⟨tot % 1440, Nat.mod_lt _ (by norm_num),
        by simp [calculate_estimated_time, h]⟩
  · intro h
    simp [calculate_estimated_time, estMinutes, h]

/-- C4 witness: a malformed availability window fails soft to `"N/A"`. -/
theorem estimate_time_total_witness :
    startMinutes ⟨1, "X", true, "whenever", 5, 15⟩ = none
    ∧ calculate_estimated_time ⟨1, "X", true, "whenever", 5, 15⟩ 3 = "N/A" :=
  ⟨by decide, (estimate_time_total ⟨1, "X", true, "whenever", 5, 15⟩ 3).2 (by decide)⟩

/-! ### C5 and C10: date availability -/

/-- C5: for a well-formed requested date, `is_date_available` rejects past
dates; on today's date it rejects exactly when the clock is at or past the
window end and fails open to `true` when the window end does not parse; and
it accepts every future date. -/
theorem dateLt_irrefl (d : CalDate) : dateLt d d = false := by
  simp [dateLt]

theorem is_date_available_spec (doc : Doctor) (dstr : String) (today : CalDate)
    (nowMin : Nat) (sel : CalDate) (hp : parseDate dstr = some sel) :
    (dateLt sel today = true →
      is_date_available doc dstr today nowMin = some false)
    ∧ (sel = today → ∀ e, endMinutes doc = some e →
        (nowMin < e → is_date_available doc dstr today nowMin = some true)
        ∧ (e ≤ nowMin → is_date_available doc dstr today nowMin = some false))
    ∧ (sel = today → endMinutes doc = none →
        is_date_available doc dstr today nowMin = some true)
    ∧ (dateLt sel today = false → sel ≠ today →
        is_date_available doc dstr today nowMin = some true) := by
  have hlt : sel = today → dateLt sel today = false := by
    rintro rfl
    simp [dateLt]
  refine ⟨?_, ?_, ?_, ?_⟩
  · intro h
    simp [is_date_available, hp, h]
  · rintro rfl e he
    constructor
    · intro h
      simp [is_date_available, hp, hlt rfl, he, h]
    · intro h
      simp [is_date_available, hp, hlt rfl, he, Nat.not_lt.mpr h]
  · rintro rfl he
    simp [is_date_available, hp, hlt rfl, he]
  · intro h hne
    simp [is_date_available, hp, h, hne]

/-- C5 witness: with window end 17:00, booking today is allowed at 16:59 and
refused at 17:00. -/
theorem is_date_available_spec_witness :
    parseDate "2026-01-01" = some day0
    ∧ endMinutes drSmith = some 1020
    ∧ is_date_available drSmith "2026-01-01" day0 1019 = some true
    ∧ is_date_available drSmith "2026-01-01" day0 1020 = some false := by
  refine ⟨by decide, by decide, ?_, ?_⟩
  · exact (((is_date_available_spec drSmith "2026-01-01" day0 1019 day0
      (by decide)).2.1 rfl 1020 (by decide)).1 (by decide))
  · exact (((is_date_available_spec drSmith "2026-01-01" day0 1020 day0
      (by decide)).2.1 rfl 1020 (by decide)).2 (by decide))

/-- C10: the date-availability check is total only for well-formed date
strings — a malformed requested date makes `is_date_available` raise (the
`strptime` call sits outside the `try` block), modelled as `none`; any
well-formed date yields a Boolean. -/
theorem is_date_available_raises (doc : Doctor) (dstr : String) (today : CalDate)
    (nowMin : Nat) :
    (parseDate dstr = none → is_date_available doc dstr today nowMin = none)
    ∧ (∀ sel, parseDate dstr = some sel →
        ∃ b, is_date_available doc dstr today nowMin = some b) := by
  constructor
  · intro h
    simp [is_date_available, h]
  · intro sel h
    simp only [is_date_available, h]
    by_cases h1 : dateLt sel today = true
    · exact ⟨false, by simp [h1]⟩
    · by_cases h2 : sel = today
      · subst h2
        cases he : endMinutes doc with
        | none => exact ⟨true, by simp [he, dateLt_irrefl]⟩
        | some e => exact ⟨decide (nowMin < e), by simp [he, dateLt_irrefl]⟩
      · exact ⟨true, by simp [h1, h2]⟩

/-- C10 witness: a malformed date string raises even for a fully
well-configured doctor. -/
theorem is_date_available_raises_witness :
    parseDate "not-a-date" = none
    ∧ is_date_available drSmith "not-a-date" day0 0 = none :=
  ⟨by decide, (is_date_available_raises drSmith "not-a-date" day0 0).1 (by decide)⟩

/-! ### C8: relative-date resolution -/

/-- C8: the voice path maps a command containing "tomorrow" to the next
day; otherwise a command containing "today" or "aaj" to today; and
anything else — including commands with no temporal cue — to the next day. -/
theorem resolve_relative_date_spec (command : String) (today : CalDate) :
    (strContains command "tomorrow" = true →
      resolve_relative_date command today = nextDay today)
    ∧ (strContains command "tomorrow" = false →
        strContains command "today" = true ∨ strContains command "aaj" = true →
        resolve_relative_date command today = today)
    ∧ (strContains command "tomorrow" = false →
        strContains command "today" = false → strContains command "aaj" = false →
        resolve_relative_date command today = nextDay today) := by
  refine ⟨?_, ?_, ?_⟩
  · intro h
    simp [resolve_relative_date, h]
  · intro h1 h2
    rcases h2 with h2 | h2 <;> simp [resolve_relative_date, h1, h2]
  · intro h1 h2 h3
    simp [resolve_relative_date, h1, h2, h3]

/-- C8 witness: the three concrete cases, including the fail-safe default
on a command with no temporal cue. -/
theorem resolve_relative_date_spec_witness :
    resolve_relative_date "book smith tomorrow" day0 = nextDay day0
    ∧ resolve_relative_date "book smith aaj" day0 = day0
    ∧ resolve_relative_date "book smith" day0 = nextDay day0 :=
  ⟨(resolve_relative_date_spec "book smith tomorrow" day0).1 (by decide),
   (resolve_relative_date_spec "book smith aaj" day0).2.1 (by decide)
     (Or.inr (by decide)),
   (resolve_relative_date_spec "book smith" day0).2.2 (by decide) (by decide)
     (by decide)⟩

/-! ### C1: the booking operation -/

/-- C1 counterexample: the code's check (1) passes for a doctor with
`availability = False` — the booking succeeds where the claim demands
`DoctorUnavailable` — and check (3) rejects a booking as a duplicate when
the only existing appointment for `(patient, doctor, date)` is Completed,
not Pending. -/
theorem attempt_booking_claim1_cx :
    drOff.availability = false
    ∧ (attempt_booking ⟨[drOff], [], 1⟩ day0 0 7 1 "2026-01-02").1 = .booked
    ∧ ((⟨[drSmith], [apDone], 2⟩ : State).appts.filter (fun a =>
        a.patient_id == 7 && a.doctor_id == 1 && a.date == "2026-01-02"
          && a.status == "Pending")) = []
    ∧ (attempt_booking ⟨[drSmith], [apDone], 2⟩ day0 0 7 1 "2026-01-02").1
        = .duplicateBooking := by
  refine ⟨by decide, by decide, by decide, by decide⟩

/-- C1 as amended: the checks run in order with short-circuit — (1) the
doctor row must exist (whether it is accepting bookings is *not* checked),
else the doctor-unavailable outcome; (2) the date must be bookable, else
date-not-bookable (`.raised` when the date string itself does not parse);
(3) no appointment *of any status* may exist for `(patient, doctor, date)`,
else duplicate; (4) the Pending count must be below `max_patients`, else
capacity — and on success exactly one Pending appointment is appended with
`queue_position = count + 1` and the estimate computed at that position. -/
theorem attempt_booking_spec (s : State) (today : CalDate)
    (nowMin patientId doctorId : Nat) (dateSel : String) :
    (s.doctors.find? (fun d => d.id == doctorId) = none →
      attempt_booking s today nowMin patientId doctorId dateSel
        = (.doctorNotFound, s))
    ∧ ∀ doctor, s.doctors.find? (fun d => d.id == doctorId) = some doctor →
      (is_date_available doctor dateSel today nowMin = none →
        attempt_booking s today nowMin patientId doctorId dateSel = (.raised, s))
      ∧ (is_date_available doctor dateSel today nowMin = some false →
          attempt_booking s today nowMin patientId doctorId dateSel
            = (.dateNotBookable, s))
      ∧ (is_date_available doctor dateSel today nowMin = some true →
          (s.appts.any (fun a => a.patient_id == patientId
              && a.doctor_id == doctorId && a.date == dateSel) = true →
            attempt_booking s today nowMin patientId doctorId dateSel
              = (.duplicateBooking, s))
          ∧ (s.appts.any (fun a => a.patient_id == patientId
              && a.doctor_id == doctorId && a.date == dateSel) = false →
              (doctor.max_patients ≤ (pendingFor s doctorId dateSel).length →
                attempt_booking s today nowMin patientId doctorId dateSel
                  = (.capacityExceeded, s))
              ∧ ((pendingFor s doctorId dateSel).length < doctor.max_patients →
                  attempt_booking s today nowMin patientId doctorId dateSel
                    = (.booked,
                      { s with
                        appts := s.appts ++
                          [{ id := s.nextId
                             appointment_number :=
                               (pendingFor s doctorId dateSel).length + 1
                             patient_id := patientId
                             doctor_id := doctorId
                             date := dateSel
                             status := "Pending"
                             prescription := none
                             pharmacy_status := "Not Processed"
                             estimated_time := calculate_estimated_time doctor
                               ((pendingFor s doctorId dateSel).length + 1)
                             created_at := s.nextId }]
                        nextId := s.nextId + 1 })))) := by
  constructor
  · intro h
    simp [attempt_booking, h]
  · intro doctor hf
    refine ⟨?_, ?_, ?_⟩
    · intro h
      simp [attempt_booking, hf, h]
    · intro h
      simp [attempt_booking, hf, h]
    · intro h
      constructor
      · intro hdup
        simp [attempt_booking, hf, h, hdup]
      · intro hdup
        constructor
        · intro hcap
          rw [pendingFor] at hcap
          simp [attempt_booking, hf, h, hdup, hcap]
        · intro hcap
          rw [pendingFor] at hcap
          simp [attempt_booking, hf, h, hdup, pendingFor,
            Nat.not_le.mpr hcap]

/-- C1 witness: a successful booking on an empty table gets queue position 1
and the estimate at position 1. -/
theorem attempt_booking_spec_witness :
    (⟨[drSmith], [], 1⟩ : State).doctors.find? (fun d => d.id == 1) = some drSmith
    ∧ is_date_available drSmith "2026-01-02" day0 0 = some true
    ∧ attempt_booking ⟨[drSmith], [], 1⟩ day0 0 7 1 "2026-01-02"
        = (.booked, ⟨[drSmith],
            [{ id := 1, appointment_number := 1, patient_id := 7, doctor_id := 1,
               date := "2026-01-02", status := "Pending", prescription := none,
               pharmacy_status := "Not Processed",
               estimated_time := calculate_estimated_time drSmith 1,
               created_at := 1 }], 2⟩) := by
  refine ⟨by decide, by decide, ?_⟩
  exact ((((attempt_booking_spec ⟨[drSmith], [], 1⟩ day0 0 7 1 "2026-01-02").2
    drSmith (by decide)).2.2 (by decide)).2 (by decide)).2 (by decide)

/-! ### C2: invariant I1 and the reindexing walk -/

/-- Projection of an appointment onto every field the reindexing loop does
not touch. -/
def apptKey (a : Appointment) :
    Nat × Nat × Nat × String × String × Option String × String × Nat :=
  (a.id, a.patient_id, a.doctor_id, a.date, a.status, a.prescription,
    a.pharmacy_status, a.created_at)

/-- The reindexing loop restricted to the rows of the partition it walks:
assign `k, k+1, …` and recompute each estimate. -/
def assignFrom (doc : Doctor) : Nat → List Appointment → List Appointment
  | _, [] => []
  | k, a :: rest =>
    { a with appointment_number := k,
             estimated_time := calculate_estimated_time doc k }
      :: assignFrom doc (k + 1) rest

theorem isPend_renumber (did : Nat) (dt : String) (a : Appointment) (k : Nat)
    (e : String) :
    isPend did dt { a with appointment_number := k, estimated_time := e }
      = isPend did dt a := rfl

theorem isPend_disjoint {did did' : Nat} {dt dt' : String} {a : Appointment}
    (hne : ¬(did' = did ∧ dt' = dt)) (ha : isPend did dt a = true) :
    isPend did' dt' a = false := by
  cases hx : isPend did' dt' a with
  | false => rfl
  | true =>
    exfalso
    simp only [isPend, Bool.and_eq_true, beq_iff_eq] at ha hx
    exact hne ⟨hx.1.1.symm.trans ha.1.1, hx.1.2.symm.trans ha.1.2⟩

theorem isPend_completeUpd_self (did : Nat) (dt : String) (apptId : Nat)
    (rx : String) (b : Appointment) (hb : b.id = apptId) :
    isPend did dt (completeUpd apptId rx b) = false := by
  simp [completeUpd, hb, isPend]

theorem reindex_filter_pend (doc : Doctor) (did : Nat) (dt : String) :
    ∀ (l : List Appointment) (k : Nat),
      (reindexAppts doc did dt k l).filter (isPend did dt)
        = assignFrom doc k (l.filter (isPend did dt)) := by
  intro l
  induction l with
  | nil => intro k; simp [reindexAppts, assignFrom]
  | cons a l ih =>
    intro k
    cases h : isPend did dt a with
    | true =>
      simp [reindexAppts, h, List.filter_cons, isPend_renumber, assignFrom, ih]
    | false =>
      simp [reindexAppts, h, List.filter_cons, isPend_renumber, ih]

theorem reindex_filter_other (doc : Doctor) (did : Nat) (dt : String)
    (did' : Nat) (dt' : String) (hne : ¬(did' = did ∧ dt' = dt)) :
    ∀ (l : List Appointment) (k : Nat),
      (reindexAppts doc did dt k l).filter (isPend did' dt')
        = l.filter (isPend did' dt') := by
  intro l
  induction l with
  | nil => intro k; simp [reindexAppts]
  | cons a l ih =>
    intro k
    cases h : isPend did dt a with
    | true =>
      have hno : isPend did' dt' a = false := isPend_disjoint hne h
      simp [reindexAppts, h, List.filter_cons, isPend_renumber, hno, ih]
    | false =>
      simp [reindexAppts, h, List.filter_cons, ih]

theorem reindex_map_id (doc : Doctor) (did : Nat) (dt : String) :
    ∀ (l : List Appointment) (k : Nat),
      (reindexAppts doc did dt k l).map (·.id) = l.map (·.id) := by
  intro l
  induction l with
  | nil => intro k; simp [reindexAppts]
  | cons a l ih =>
    intro k
    cases h : isPend did dt a with
    | true => simp [reindexAppts, h, ih]
    | false => simp [reindexAppts, h, ih]

theorem assignFrom_map_number (doc : Doctor) :
    ∀ (m : List Appointment) (k : Nat),
      (assignFrom doc k m).map (·.appointment_number) = List.range' k m.length := by
  intro m
  induction m with
  | nil => intro k; simp [assignFrom]
  | cons a m ih => intro k; simp [assignFrom, List.range'_succ, ih]

theorem assignFrom_length (doc : Doctor) :
    ∀ (m : List Appointment) (k : Nat), (assignFrom doc k m).length = m.length := by
  intro m
  induction m with
  | nil => intro k; rfl
  | cons a m ih => intro k; simp [assignFrom, ih]

theorem assignFrom_map_key (doc : Doctor) :
    ∀ (m : List Appointment) (k : Nat),
      (assignFrom doc k m).map apptKey = m.map apptKey := by
  intro m
  induction m with
  | nil => intro k; rfl
  | cons a m ih => intro k; simp [assignFrom, apptKey, ih]

/-- Placeholder row for total list indexing. -/
def apptDefault : Appointment := ⟨0, 0, 0, 0, "", "", none, "", "", 0⟩

theorem assignFrom_getD_est (doc : Doctor) :
    ∀ (m : List Appointment) (k i : Nat), i < m.length →
      ((assignFrom doc k m).getD i apptDefault).estimated_time
        = calculate_estimated_time doc (k + i) := by
  intro m
  induction m with
  | nil => intro k i h; simp at h
  | cons a m ih =>
    intro k i h
    cases i with
    | zero => simp [assignFrom]
    | succ i =>
      have hi : i < m.length := by simpa using h
      have := ih (k + 1) i hi
      have hk : k + 1 + i = k + (i + 1) := by omega
      simpa [assignFrom, hk] using this

/-! #### Preservation of the invariant -/

/-- The invariant package carried through the reachability induction:
I1, uniqueness of appointment ids, and the id counter bounding every id. -/
def Inv (s : State) : Prop :=
  I1 s ∧ (s.appts.map (·.id)).Nodup ∧ ∀ i ∈ s.appts.map (·.id), i < s.nextId

theorem I1_append (s : State) (did : Nat) (dt : String) (appt : Appointment)
    (n : Nat) (h1 : appt.doctor_id = did) (h2 : appt.date = dt)
    (h3 : appt.status = "Pending")
    (h4 : appt.appointment_number = (pendingFor s did dt).length + 1)
    (hI : I1 s) : I1 ⟨s.doctors, s.appts ++ [appt], n⟩ := by
  intro did' dt'
  have hpend : isPend did dt appt = true := by simp [isPend, h1, h2, h3]
  by_cases hc : did' = did ∧ dt' = dt
  · obtain ⟨rfl, rfl⟩ := hc
    have base := hI did' dt'
    simp only [pendingFor] at base ⊢
    rw [List.filter_append]
    have hone : List.filter (isPend did' dt') [appt] = [appt] := by
      simp [List.filter, hpend]
    rw [hone, List.map_append, base, List.length_append]
    simp only [pendingFor] at h4
    simp [h4, List.range'_concat, Nat.add_comm]
  · have hno : isPend did' dt' appt = false := isPend_disjoint hc hpend
    have base := hI did' dt'
    simp only [pendingFor] at base ⊢
    rw [List.filter_append]
    have hzero : List.filter (isPend did' dt') [appt] = [] := by
      simp [List.filter, hno]
    rw [hzero, List.append_nil]
    exact base

theorem inv_append (s : State) (did : Nat) (dt : String) (appt : Appointment)
    (hid : appt.id = s.nextId) (h1 : appt.doctor_id = did) (h2 : appt.date = dt)
    (h3 : appt.status = "Pending")
    (h4 : appt.appointment_number = (pendingFor s did dt).length + 1)
    (h : Inv s) : Inv ⟨s.doctors, s.appts ++ [appt], s.nextId + 1⟩ := by
  obtain ⟨hI, hnod, hbound⟩ := h
  refine ⟨I1_append s did dt appt _ h1 h2 h3 h4 hI, ?_, ?_⟩
  · simp only [List.map_append, List.map_cons, List.map_nil]
    rw [List.nodup_append]
    refine ⟨hnod, List.nodup_singleton _, ?_⟩
    intro i hi hj
    simp only [List.mem_singleton] at hj
    have hlt := hbound i hi
    rw [hj, hid] at hlt
    exact Nat.lt_irrefl _ hlt
  · intro i hi
    simp only [List.map_append, List.mem_append, List.map_cons, List.map_nil,
      List.mem_singleton] at hi
    rcases hi with hi | hi
    · exact Nat.lt_succ_of_lt (hbound i hi)
    · subst hi
      rw [hid]
      exact Nat.lt_succ_self _

theorem inv_attempt_booking (s : State) (today : CalDate)
    (nowMin patientId doctorId : Nat) (dateSel : String) (h : Inv s) :
    Inv (attempt_booking s today nowMin patientId doctorId dateSel).2 := by
  cases hf : s.doctors.find? (fun d => d.id == doctorId) with
  | none => simpa [attempt_booking, hf] using h
  | some doctor =>
    cases hd : is_date_available doctor dateSel today nowMin with
    | none => simpa [attempt_booking, hf, hd] using h
    | some b =>
      cases b with
      | false => simpa [attempt_booking, hf, hd] using h
      | true =>
        cases hdup : s.appts.any (fun a => a.patient_id == patientId
            && a.doctor_id == doctorId && a.date == dateSel) with
        | true => simpa [attempt_booking, hf, hd, hdup] using h
        | false =>
          by_cases hcap : doctor.max_patients
              ≤ (s.appts.filter (isPend doctorId dateSel)).length
          · simpa [attempt_booking, hf, hd, hdup, hcap] using h
          · simp only [attempt_booking, hf, hd, hdup, hcap]
            simp only [Bool.false_eq_true, if_false, if_neg hcap]
            exact inv_append s doctorId dateSel _ rfl rfl rfl rfl rfl h

theorem inv_voice (ratio : String → String → Score) (s : State)
    (today : CalDate) (patientId : Nat) (command : String) (h : Inv s) :
    Inv (recognize_and_book_step ratio s today patientId command).2 := by
  cases hstop : stopWords.any
      (fun w => strContains (pyLower command) w) with
  | true => simpa [recognize_and_book_step, hstop] using h
  | false =>
    cases hm : match_doctor_name ratio s.doctors (pyLower command) with
    | none => simpa [recognize_and_book_step, hstop, hm] using h
    | some r =>
      cases r with
      | none => simpa [recognize_and_book_step, hstop, hm] using h
      | some doc =>
        by_cases hcap : doc.max_patients ≤ (s.appts.filter
            (isPend doc.id (dateToStr (resolve_relative_date (pyLower command)
              today)))).length
        · simpa [recognize_and_book_step, hstop, hm, hcap] using h
        · simp only [recognize_and_book_step, hstop, hm]
          simp only [if_neg hcap]
          exact inv_append s doc.id _ _ rfl rfl rfl rfl rfl h

theorem eq_of_mem_of_id_eq :
    ∀ (l : List Appointment), (l.map (·.id)).Nodup →
      ∀ a b, a ∈ l → b ∈ l → a.id = b.id → a = b := by
  intro l
  induction l with
  | nil => intro _ a b ha; simp at ha
  | cons x l ih =>
    intro hnod a b ha hb hid
    simp only [List.map_cons, List.nodup_cons] at hnod
    obtain ⟨hx, hnod⟩ := hnod
    rcases List.mem_cons.mp ha with ha1 | ha1
    · rcases List.mem_cons.mp hb with hb1 | hb1
      · rw [ha1, hb1]
      · exfalso
        have hbx : b.id = x.id := by rw [← hid, ha1]
        exact hx (List.mem_map.mpr ⟨b, hb1, hbx⟩)
    · rcases List.mem_cons.mp hb with hb1 | hb1
      · exfalso
        have hax : a.id = x.id := by rw [hid, hb1]
        exact hx (List.mem_map.mpr ⟨a, ha1, hax⟩)
      · exact ih hnod a b ha1 hb1 hid

theorem completeUpd_id (apptId : Nat) (rx : String) (b : Appointment) :
    (completeUpd apptId rx b).id = b.id := by
  by_cases hb : b.id == apptId <;> simp [completeUpd, hb]

theorem filter_map_completeUpd (did : Nat) (dt : String) (apptId : Nat)
    (rx : String) :
    ∀ (l : List Appointment),
      (∀ b ∈ l, b.id = apptId → isPend did dt b = false) →
      (l.map (completeUpd apptId rx)).filter (isPend did dt)
        = l.filter (isPend did dt) := by
  intro l
  induction l with
  | nil => intro _; rfl
  | cons b l ih =>
    intro hyp
    have hrest := fun c hc => hyp c (List.mem_cons_of_mem _ hc)
    cases hb : b.id == apptId with
    | true =>
      have hbid : b.id = apptId := by simpa using hb
      have hno : isPend did dt b = false := hyp b (List.mem_cons_self _ _) hbid
      have hno2 : isPend did dt (completeUpd apptId rx b) = false :=
        isPend_completeUpd_self did dt apptId rx b hbid
      simp [List.filter_cons, hno, hno2, ih hrest]
    | false =>
      have hsame : completeUpd apptId rx b = b := by simp [completeUpd, hb]
      rw [List.map_cons, hsame]
      cases hp : isPend did dt b with
      | true => simp [List.filter_cons, hp, ih hrest]
      | false => simp [List.filter_cons, hp, ih hrest]

theorem inv_complete (s : State) (actorId apptId : Nat) (rx : String)
    (h : Inv s) (hdoc : (s.doctors.find? (fun d => d.id == actorId)).isSome)
    (hown : ∀ a, s.appts.find? (fun b => b.id == apptId) = some a →
      a.doctor_id = actorId) :
    Inv (complete_appointment s actorId apptId rx).2 := by
  obtain ⟨hI, hnod, hbound⟩ := h
  cases hfa : s.appts.find? (fun b => b.id == apptId) with
  | none => simpa [complete_appointment, hfa] using ⟨hI, hnod, hbound⟩
  | some a =>
    have haown := hown a hfa
    have hamem : a ∈ s.appts := List.mem_of_find?_eq_some hfa
    have haid : a.id = apptId := by simpa using List.find?_some hfa
    obtain ⟨doc, hdocs⟩ := Option.isSome_iff_exists.mp hdoc
    have hidmap : ((s.appts.map (completeUpd apptId rx)).map (·.id))
        = s.appts.map (·.id) := by
      rw [List.map_map]
      exact List.map_congr_left (fun b _ => completeUpd_id apptId rx b)
    simp only [complete_appointment, hfa, reindex_appointments, hdocs]
    refine ⟨?_, ?_, ?_⟩
    · intro did' dt'
      by_cases hc : did' = actorId ∧ dt' = a.date
      · obtain ⟨rfl, rfl⟩ := hc
        simp only [pendingFor]
        rw [reindex_filter_pend, assignFrom_map_number, assignFrom_length]
      · simp only [pendingFor]
        rw [reindex_filter_other doc actorId a.date did' dt' hc,
          filter_map_completeUpd]
        · exact hI did' dt'
        · intro b hb hbid
          have hba : b = a :=
            eq_of_mem_of_id_eq s.appts hnod b a hb hamem
              (hbid.trans haid.symm)
          subst hba
          cases hx : isPend did' dt' b with
          | false => rfl
          | true =>
            exfalso
            simp only [isPend, Bool.and_eq_true, beq_iff_eq] at hx
            exact hc ⟨hx.1.1.symm.trans haown, hx.1.2.symm⟩
    · rw [reindex_map_id, hidmap]
      exact hnod
    · intro i hi
      rw [reindex_map_id, hidmap] at hi
      exact hbound i hi

theorem reachable_inv : ∀ s, Reachable s → Inv s := by
  intro s h
  induction h with
  | init doctors n =>
    refine ⟨fun did dt => by simp [pendingFor], by simp, by simp⟩
  | book s today nowMin patientId doctorId dateSel _ ih =>
    exact inv_attempt_booking s today nowMin patientId doctorId dateSel ih
  | voice ratio s today patientId command _ ih =>
    exact inv_voice ratio s today patientId command ih
  | complete s actorId apptId rx _ hdoc hown ih =>
    exact inv_complete s actorId apptId rx ih hdoc hown

/-- C2 counterexample: two successful bookings with doctor 2, then the code's
completion operation invoked by doctor 1 on doctor 2's first appointment —
each step succeeding — leave the Pending partition of doctor 2 with queue
positions `[2]`, not `{1}`: the claim's "any sequence of successful bookings
and completions" is refuted because the completion handler reindexes the
acting doctor's partition without checking that the appointment belongs to
the actor. -/
theorem I1_claim_cx :
    (attempt_booking ⟨[drSmith, ⟨2, "Bob Blue", true, "09:00–17:00", 5, 15⟩], [], 1⟩
        day0 0 10 2 "2026-01-02").1 = .booked
    ∧ (attempt_booking (attempt_booking
          ⟨[drSmith, ⟨2, "Bob Blue", true, "09:00–17:00", 5, 15⟩], [], 1⟩
          day0 0 10 2 "2026-01-02").2 day0 0 11 2 "2026-01-02").1 = .booked
    ∧ (complete_appointment (attempt_booking (attempt_booking
          ⟨[drSmith, ⟨2, "Bob Blue", true, "09:00–17:00", 5, 15⟩], [], 1⟩
          day0 0 10 2 "2026-01-02").2 day0 0 11 2 "2026-01-02").2 1 1 "rx").1
        = .done
    ∧ (pendingFor (complete_appointment (attempt_booking (attempt_booking
          ⟨[drSmith, ⟨2, "Bob Blue", true, "09:00–17:00", 5, 15⟩], [], 1⟩
          day0 0 10 2 "2026-01-02").2 day0 0 11 2 "2026-01-02").2 1 1 "rx").2
          2 "2026-01-02").map (·.appointment_number) = [2]
    ∧ ¬ ((pendingFor (complete_appointment (attempt_booking (attempt_booking
          ⟨[drSmith, ⟨2, "Bob Blue", true, "09:00–17:00", 5, 15⟩], [], 1⟩
          day0 0 10 2 "2026-01-02").2 day0 0 11 2 "2026-01-02").2 1 1 "rx").2
          2 "2026-01-02").map (·.appointment_number)
        = List.range' 1 (pendingFor (complete_appointment (attempt_booking
            (attempt_booking
              ⟨[drSmith, ⟨2, "Bob Blue", true, "09:00–17:00", 5, 15⟩], [], 1⟩
              day0 0 10 2 "2026-01-02").2 day0 0 11 2 "2026-01-02").2 1 1 "rx").2
            2 "2026-01-02").length) := by
  exact ⟨by decide, by decide, by decide, by decide, by decide⟩

/-- C2 as amended: for every state reachable by bookings (visual or voice)
and completions — provided each completion is performed by the doctor who
owns the appointment, since the handler reindexes the acting doctor's
partition without checking ownership — invariant I1 holds: every Pending
partition's queue positions, in creation order, are exactly `1, 2, …, N`;
and the reindexing run after each completion walks the remaining Pending
rows in creation order, reassigns positions `1, 2, 3, …`, leaves every other
field of the walked rows unchanged, and recomputes each estimate via
`estimate_time` at the new position. -/
theorem I1_reachable_and_reindex :
    (∀ s, Reachable s → I1 s)
    ∧ (∀ (s : State) (did : Nat) (dt : String) (doc : Doctor),
        s.doctors.find? (fun d => d.id == did) = some doc →
        (((reindex_appointments s did dt).appts.filter (isPend did dt)).map
            (·.appointment_number)
          = List.range' 1 ((s.appts.filter (isPend did dt)).length))
        ∧ (((reindex_appointments s did dt).appts.filter (isPend did dt)).map
              apptKey
            = (s.appts.filter (isPend did dt)).map apptKey)
        ∧ ∀ i, i < ((s.appts.filter (isPend did dt))).length →
            (((reindex_appointments s did dt).appts.filter
              (isPend did dt)).getD i apptDefault).estimated_time
              = calculate_estimated_time doc (1 + i)) := by
  constructor
  · exact fun s h => (reachable_inv s h).1
  · intro s did dt doc hdocs
    simp only [reindex_appointments, hdocs]
    refine ⟨?_, ?_, ?_⟩
    · rw [reindex_filter_pend, assignFrom_map_number]
    · rw [reindex_filter_pend, assignFrom_map_key]
    · intro i h
      rw [reindex_filter_pend]
      exact assignFrom_getD_est doc _ 1 i h

/-- C2 witness: instantiates the invariant at the state reached by one
concrete successful booking. -/
theorem I1_reachable_witness :
    I1 (attempt_booking ⟨[drSmith], [], 1⟩ day0 0 7 1 "2026-01-02").2 :=
  I1_reachable_and_reindex.1 _
    (Reachable.book ⟨[drSmith], [], 1⟩ day0 0 7 1 "2026-01-02"
      (Reachable.init [drSmith] 1))

/-! ### C9: completion of an appointment -/

theorem find_id_map_updC (apptId : Nat) (rx : String) :
    ∀ (l : List Appointment) (a : Appointment),
      l.find? (fun b => b.id == apptId) = some a →
      (l.map (completeUpd apptId rx)).find? (fun b => b.id == apptId)
        = some (completeUpd apptId rx a) := by
  intro l
  induction l with
  | nil => intro a h; simp at h
  | cons b l ih =>
    intro a h
    cases hb : (b.id == apptId) with
    | true =>
      rw [List.find?_cons, hb] at h
      obtain rfl : b = a := by simpa using h
      rw [List.map_cons, List.find?_cons]
      rw [show ((completeUpd apptId rx b).id == apptId) = true from by
        rw [completeUpd_id]; exact hb]
    | false =>
      rw [List.find?_cons, hb] at h
      rw [List.map_cons, List.find?_cons]
      rw [show ((completeUpd apptId rx b).id == apptId) = false from by
        rw [completeUpd_id]; exact hb]
      exact ih a h

theorem find_id_reindex (doc : Doctor) (did : Nat) (dt : String) (apptId : Nat) :
    ∀ (l : List Appointment) (k : Nat) (x : Appointment),
      l.find? (fun c => c.id == apptId) = some x → isPend did dt x = false →
      (reindexAppts doc did dt k l).find? (fun c => c.id == apptId) = some x := by
  intro l
  induction l with
  | nil => intro k x h; simp at h
  | cons b l ih =>
    intro k x h hx
    cases hb : (b.id == apptId) with
    | true =>
      rw [List.find?_cons, hb] at h
      obtain rfl : b = x := by simpa using h
      rw [show reindexAppts doc did dt k (b :: l)
          = b :: reindexAppts doc did dt k l from by simp [reindexAppts, hx]]
      rw [List.find?_cons, hb]
    | false =>
      rw [List.find?_cons, hb] at h
      cases hp : isPend did dt b with
      | true =>
        rw [show reindexAppts doc did dt k (b :: l)
            = { b with appointment_number := k, estimated_time := calculate_estimated_time doc k } :: reindexAppts doc did dt (k + 1) l
          from by simp [reindexAppts, hp]]
        rw [List.find?_cons]
        rw [show (({ b with appointment_number := k, estimated_time := calculate_estimated_time doc k } : Appointment).id == apptId) = false
          from hb]
        exact ih (k + 1) x h hx
      | false =>
        rw [show reindexAppts doc did dt k (b :: l)
            = b :: reindexAppts doc did dt k l from by simp [reindexAppts, hp]]
        rw [List.find?_cons, hb]
        exact ih k x h hx

theorem reindexAppts_idem (doc : Doctor) (did : Nat) (dt : String) :
    ∀ (l : List Appointment) (k : Nat),
      reindexAppts doc did dt k (reindexAppts doc did dt k l)
        = reindexAppts doc did dt k l := by
  intro l
  induction l with
  | nil => intro k; rfl
  | cons a l ih =>
    intro k
    cases h : isPend did dt a with
    | true => simp [reindexAppts, h, isPend_renumber, ih]
    | false => simp [reindexAppts, h, ih]

theorem reindex_appointments_idem (s : State) (did : Nat) (dt : String) :
    reindex_appointments (reindex_appointments s did dt) did dt
      = reindex_appointments s did dt := by
  cases hd : s.doctors.find? (fun d => d.id == did) with
  | none => simp [reindex_appointments, hd]
  | some doc => simp [reindex_appointments, hd, reindexAppts_idem]

/-- C9 counterexample: completing an appointment that is already Completed
does not fail with NotFound and does not leave the state unchanged — the
code re-runs the update, overwriting the stored prescription. -/
theorem complete_claim_cx :
    apDone.status = "Completed"
    ∧ (complete_appointment ⟨[drSmith], [apDone], 2⟩ 1 1 "other").1 = .done
    ∧ (complete_appointment ⟨[drSmith], [apDone], 2⟩ 1 1 "other").2
        ≠ ⟨[drSmith], [apDone], 2⟩
    ∧ ((complete_appointment ⟨[drSmith], [apDone], 2⟩ 1 1 "other").2.appts.map
        (·.prescription)) = [some "other"] := by
  exact ⟨by decide, by decide, by decide, by decide⟩

/-- C9 as amended: completing an appointment sets its status to Completed,
attaches the prescription text, and reindexes the acting doctor's partition
for the appointment's date, whose Pending queue numbers become `1, …, N`;
when the appointment id does not resolve, the operation is a silent no-op
(the state is returned unchanged, with no NotFound outcome surfaced); an
appointment that is already Completed is *not* rejected — the operation
re-runs, overwriting the prescription — but renumbering twice is harmless
because reindexing is idempotent. -/
theorem complete_appointment_spec (s : State) (actorId apptId : Nat)
    (rx : String) :
    (s.appts.find? (fun b => b.id == apptId) = none →
      complete_appointment s actorId apptId rx = (.missing, s))
    ∧ (∀ a, s.appts.find? (fun b => b.id == apptId) = some a →
        (complete_appointment s actorId apptId rx).1 = .done
        ∧ ((complete_appointment s actorId apptId rx).2.appts.find?
            (fun b => b.id == apptId))
            = some { a with prescription := some rx, status := "Completed" }
        ∧ ∀ doc, s.doctors.find? (fun d => d.id == actorId) = some doc →
            (((complete_appointment s actorId apptId rx).2.appts.filter
              (isPend actorId a.date)).map (·.appointment_number))
              = List.range' 1 (((complete_appointment s actorId apptId
                  rx).2.appts.filter (isPend actorId a.date)).length))
    ∧ (∀ did dt, reindex_appointments (reindex_appointments s did dt) did dt
        = reindex_appointments s did dt) := by
  refine ⟨?_, ?_, fun did dt => reindex_appointments_idem s did dt⟩
  · intro h
    simp [complete_appointment, h]
  · intro a hfa
    have haid : (a.id == apptId) = true := by
      have h := List.find?_some hfa
      simpa using h
    have hupd := find_id_map_updC apptId rx s.appts a hfa
    have hupdEq : completeUpd apptId rx a
        = { a with prescription := some rx, status := "Completed" } := by
      simp [completeUpd, haid]
    refine ⟨by simp [complete_appointment, hfa], ?_, ?_⟩
    · simp only [complete_appointment, hfa]
      cases hd : s.doctors.find? (fun d => d.id == actorId) with
      | none =>
        simp only [reindex_appointments, hd]
        rw [hupd, hupdEq]
      | some doc =>
        simp only [reindex_appointments, hd]
        exact find_id_reindex doc actorId a.date apptId _ 1 _
          (by rw [hupd, hupdEq]) (by simp [isPend])
    · intro doc hd
      simp only [complete_appointment, hfa, reindex_appointments, hd]
      rw [reindex_filter_pend, assignFrom_map_number, assignFrom_length]

/-- C9 witness: a missing appointment id leaves the state unchanged. -/
theorem complete_appointment_spec_witness :
    complete_appointment ⟨[drSmith], [], 1⟩ 1 5 "rx"
      = (.missing, ⟨[drSmith], [], 1⟩) :=
  (complete_appointment_spec ⟨[drSmith], [], 1⟩ 1 5 "rx").1 (by decide)

/-! ### C7: the fuzzy doctor matcher -/

theorem Score.lt_irr (a : Score) : ¬ Score.lt a a := Int.lt_irrefl _

/-- Complete characterization of the best-candidate fold: either no
candidate strictly improves on the initial score and the accumulator is
returned, or the result is the *first* candidate attaining the maximum. -/
theorem foldl_matchStep_char (sc : Doctor → Score) :
    ∀ (l : List Doctor) (b : Option Doctor) (s : Score),
      (List.foldl (matchStep sc) (b, s) l = (b, s) ∧ ∀ e ∈ l, Score.le (sc e) s)
      ∨ ∃ l1 d l2, l = l1 ++ d :: l2 ∧ Score.lt s (sc d)
          ∧ (∀ e ∈ l1, Score.lt (sc e) (sc d))
          ∧ (∀ e ∈ l2, Score.le (sc e) (sc d))
          ∧ List.foldl (matchStep sc) (b, s) l = (some d, sc d) := by
  intro l
  induction l with
  | nil => intro b s; exact Or.inl ⟨rfl, by simp⟩
  | cons a l ih =>
    intro b s
    rw [List.foldl_cons]
    cases hlt : Score.slt s (sc a) with
    | true =>
      have hlt' : Score.lt s (sc a) := Score.slt_eq_true.mp hlt
      rw [show matchStep sc (b, s) a = (some a, sc a) from by
        simp [matchStep, hlt]]
      rcases ih (some a) (sc a) with ⟨hf, hall⟩ | ⟨l1, d, l2, heq, hsd, h1, h2, hf⟩
      · exact Or.inr ⟨[], a, l, rfl, hlt', by simp, hall, hf⟩
      · refine Or.inr ⟨a :: l1, d, l2, by rw [heq, List.cons_append],
          Score.lt_trans hlt' hsd, ?_, h2, hf⟩
        intro e he
        rcases List.mem_cons.mp he with rfl | he
        · exact hsd
        · exact h1 e he
    | false =>
      have hle : Score.le (sc a) s := Score.slt_eq_false.mp hlt
      rw [show matchStep sc (b, s) a = (b, s) from by simp [matchStep, hlt]]
      rcases ih b s with ⟨hf, hall⟩ | ⟨l1, d, l2, heq, hsd, h1, h2, hf⟩
      · refine Or.inl ⟨hf, ?_⟩
        intro e he
        rcases List.mem_cons.mp he with rfl | he
        · exact hle
        · exact hall e he
      · refine Or.inr ⟨a :: l1, d, l2, by rw [heq, List.cons_append], hsd,
          ?_, h2, hf⟩
        intro e he
        rcases List.mem_cons.mp he with rfl | he
        · exact Score.lt_of_le_of_lt hle hsd
        · exact h1 e he

/-- C7: with every candidate's name non-empty (else the code raises), the
matcher returns NoMatch exactly when every candidate's final score — the
similarity ratio of normalized names plus the 0.4 token bonus — is below
the 0.4 threshold; and whenever a candidate's score reaches the threshold,
is strictly above every earlier candidate's and at least every later
candidate's, that candidate — the first attaining the maximum, which
encodes the input-order tie-break — is returned. -/
theorem match_doctor_name_spec (ratio : String → String → Score)
    (doctors : List Doctor) (command : String)
    (htok : ∀ d ∈ doctors, pySplitWs (pyLower d.name) ≠ []) :
    (match_doctor_name ratio doctors command = some none
      ↔ ∀ d ∈ doctors,
          Score.lt (finalScore ratio (normalize_text command) d) Score.pt4)
    ∧ (∀ l1 d l2, doctors = l1 ++ d :: l2 →
        Score.le Score.pt4 (finalScore ratio (normalize_text command) d) →
        (∀ e ∈ l1, Score.lt (finalScore ratio (normalize_text command) e)
          (finalScore ratio (normalize_text command) d)) →
        (∀ e ∈ l2, Score.le (finalScore ratio (normalize_text command) e)
          (finalScore ratio (normalize_text command) d)) →
        match_doctor_name ratio doctors command = some (some d)) := by
  have hany : (doctors.any (fun d => pySplitWs (pyLower d.name) = [])) = false := by
    rw [List.any_eq_false]
    intro d hd
    simpa using htok d hd
  set sc := finalScore ratio (normalize_text command) with hsc
  constructor
  · rcases foldl_matchStep_char sc doctors none Score.zero with
      ⟨hf, hall⟩ | ⟨l1, d, l2, heq, hsd, h1, h2, hf⟩
    · refine iff_of_true ?_ ?_
      · simp [match_doctor_name, hany, hf]
      · intro d hd
        exact Score.lt_of_le_of_lt (hall d hd) Score.zero_lt_pt4
    · cases hth : Score.sle Score.pt4 (sc d) with
      | true =>
        refine iff_of_false ?_ ?_
        · simp [match_doctor_name, hany, hf, hth]
        · intro hall
          have hd : d ∈ doctors := by
            rw [heq]
            exact List.mem_append_right _ (List.mem_cons_self _ _)
          exact Score.not_lt.mpr (Score.sle_eq_true.mp hth) (hall d hd)
      | false =>
        refine iff_of_true ?_ ?_
        · simp [match_doctor_name, hany, hf, hth]
        · have hdlt : Score.lt (sc d) Score.pt4 := Score.sle_eq_false.mp hth
          intro e he
          rw [heq] at he
          rcases List.mem_append.mp he with he | he
          · exact Score.lt_trans (h1 e he) hdlt
          · rcases List.mem_cons.mp he with rfl | he
            · exact hdlt
            · exact Score.lt_of_le_of_lt (h2 e he) hdlt
  · intro l1 d l2 heq hth h1 h2
    subst heq
    have hacc : ∃ b1 s1,
        List.foldl (matchStep sc) (none, Score.zero) l1 = (b1, s1)
          ∧ Score.lt s1 (sc d) := by
      rcases foldl_matchStep_char sc l1 none Score.zero with
        ⟨hf, _⟩ | ⟨m1, d1, m2, heqm, _, _, _, hf⟩
      · exact ⟨none, Score.zero, hf, Score.lt_of_lt_of_le Score.zero_lt_pt4 hth⟩
      · refine ⟨some d1, sc d1, hf, ?_⟩
        have hd1 : d1 ∈ l1 := by
          rw [heqm]
          exact List.mem_append_right _ (List.mem_cons_self _ _)
        exact h1 d1 hd1
    obtain ⟨b1, s1, hf1, hs1⟩ := hacc
    have hstepd : matchStep sc (b1, s1) d = (some d, sc d) := by
      simp [matchStep, Score.slt_eq_true.mpr hs1]
    have hf2 : List.foldl (matchStep sc) (some d, sc d) l2 = (some d, sc d) := by
      rcases foldl_matchStep_char sc l2 (some d) (sc d) with
        ⟨hf, _⟩ | ⟨m1, d2, m2, heqm, hsd2, _, _, _⟩
      · exact hf
      · exfalso
        have hd2 : d2 ∈ l2 := by
          rw [heqm]
          exact List.mem_append_right _ (List.mem_cons_self _ _)
        exact Score.lt_irr _ (Score.lt_of_lt_of_le hsd2 (h2 d2 hd2))
    have hfold : List.foldl (matchStep sc) (none, Score.zero) (l1 ++ d :: l2)
        = (some d, sc d) := by
      rw [List.foldl_append, hf1, List.foldl_cons, hstepd, hf2]
    simp [match_doctor_name, hany, hfold, Score.sle_eq_true.mpr hth]

/-- C7 witness: with the similarity collaborator returning 0 everywhere,
"John Smith" earns exactly the 0.4 substring bonus on the command
"book doctor smith tomorrow", meets the threshold, and is returned. -/
theorem match_doctor_name_spec_witness :
    match_doctor_name ratioZero [drSmith] "book doctor smith tomorrow"
      = some (some drSmith) :=
  (match_doctor_name_spec ratioZero [drSmith] "book doctor smith tomorrow"
      (by decide)).2 [] drSmith [] rfl (by decide) (by decide) (by decide)

/-! ### C6: the voice-booking path against the visual path -/

/-- C6 counterexample: the patient already holds a Pending appointment with
doctor 1 for 2026-01-02; the voice path books it again — leaving two
Pending appointments for the same `(patient, doctor, date)`, violating
invariant I2 — while the visual booking path on the same state returns
DuplicateBooking.  The voice path therefore does not delegate to the same
checks as the visual path. -/
theorem voice_claim_cx :
    (recognize_and_book_step (fun _ _ => ⟨1, 1, one_pos⟩) ⟨[drSmith], [apPend], 2⟩
        day0 7 "book doctor smith tomorrow").1 = .booked
    ∧ (((recognize_and_book_step (fun _ _ => ⟨1, 1, one_pos⟩)
          ⟨[drSmith], [apPend], 2⟩ day0 7 "book doctor smith tomorrow").2).appts.filter
        (fun a => a.patient_id == 7 && a.doctor_id == 1
          && a.date == "2026-01-02")).length = 2
    ∧ (attempt_booking ⟨[drSmith], [apPend], 2⟩ day0 0 7 1 "2026-01-02").1
        = .duplicateBooking := by
  exact ⟨by decide, by decide, by decide⟩

/-- C6 as amended: once the voice path has resolved a doctor and a date it
checks only capacity — it does not re-check that the doctor is accepting
bookings, that the date is bookable, or that no duplicate exists, so it can
create a duplicate Pending appointment that the visual path would reject —
and when capacity allows, it creates the same Pending appointment record
the visual path would create: whenever the visual path's remaining checks
happen to pass on the same state, the two paths produce identical states. -/
theorem recognize_and_book_spec (ratio : String → String → Score) (s : State)
    (today : CalDate) (patientId : Nat) (commandRaw : String) :
    (stopWords.any (fun w => strContains (pyLower commandRaw) w) = true →
      recognize_and_book_step ratio s today patientId commandRaw = (.stopped, s))
    ∧ (stopWords.any (fun w => strContains (pyLower commandRaw) w) = false →
        (match_doctor_name ratio s.doctors (pyLower commandRaw) = none →
          recognize_and_book_step ratio s today patientId commandRaw
            = (.errored, s))
        ∧ (match_doctor_name ratio s.doctors (pyLower commandRaw) = some none →
            recognize_and_book_step ratio s today patientId commandRaw
              = (.doctorNotFound, s))
        ∧ ∀ doc, match_doctor_name ratio s.doctors (pyLower commandRaw)
              = some (some doc) →
            (doc.max_patients ≤ (s.appts.filter (isPend doc.id (dateToStr
                (resolve_relative_date (pyLower commandRaw) today)))).length →
              recognize_and_book_step ratio s today patientId commandRaw
                = (.capacityFull, s))
            ∧ ((s.appts.filter (isPend doc.id (dateToStr
                  (resolve_relative_date (pyLower commandRaw) today)))).length
                  < doc.max_patients →
                (recognize_and_book_step ratio s today patientId commandRaw).1
                    = .booked
                ∧ (recognize_and_book_step ratio s today patientId
                      commandRaw).2.appts
                    = s.appts ++
                      [{ id := s.nextId
                         appointment_number := (s.appts.filter (isPend doc.id
                           (dateToStr (resolve_relative_date (pyLower commandRaw)
                             today)))).length + 1
                         patient_id := patientId
                         doctor_id := doc.id
                         date := dateToStr (resolve_relative_date
                           (pyLower commandRaw) today)
                         status := "Pending"
                         prescription := none
                         pharmacy_status := "Not Processed"
                         estimated_time := calculate_estimated_time doc
                           ((s.appts.filter (isPend doc.id (dateToStr
                             (resolve_relative_date (pyLower commandRaw)
                               today)))).length + 1)
                         created_at := s.nextId }]
                ∧ ∀ nowMin,
                    s.doctors.find? (fun d => d.id == doc.id) = some doc →
                    is_date_available doc (dateToStr (resolve_relative_date
                      (pyLower commandRaw) today)) today nowMin = some true →
                    (s.appts.any (fun a => a.patient_id == patientId
                      && a.doctor_id == doc.id
                      && a.date == dateToStr (resolve_relative_date
                        (pyLower commandRaw) today))) = false →
                    attempt_booking s today nowMin patientId doc.id
                        (dateToStr (resolve_relative_date (pyLower commandRaw)
                          today))
                      = (.booked, (recognize_and_book_step ratio s today
                          patientId commandRaw).2))) := by
  constructor
  · intro hstop
    simp [recognize_and_book_step, hstop]
  · intro hstop
    refine ⟨?_, ?_, ?_⟩
    · intro hm
      simp [recognize_and_book_step, hstop, hm]
    · intro hm
      simp [recognize_and_book_step, hstop, hm]
    · intro doc hm
      constructor
      · intro hcap
        simp [recognize_and_book_step, hstop, hm, hcap]
      · intro hcap
        have hcap' := Nat.not_le.mpr hcap
        refine ⟨?_, ?_, ?_⟩
        · simp [recognize_and_book_step, hstop, hm, hcap']
        · simp [recognize_and_book_step, hstop, hm, hcap']
        · intro nowMin hfind hdate hdup
          simp [attempt_booking, hfind, hdate, hdup, pendingFor, hcap',
            recognize_and_book_step, hstop, hm]

/-- C6 witness: on an empty table the voice path books successfully. -/
theorem recognize_and_book_spec_witness :
    (recognize_and_book_step ratioZero ⟨[drSmith], [], 1⟩ day0 7
      "book doctor smith tomorrow").1 = .booked :=
  ((((recognize_and_book_spec ratioZero ⟨[drSmith], [], 1⟩ day0 7
      "book doctor smith tomorrow").2 (by decide)).2.2 drSmith
      (by decide)).2 (by decide)).1

end Clinic
